import Mathlib

/-!
# Verification of the pothole-game swallow/growth/progression core

A shallow embedding of the game's core logic:

* `swallowLogic.ts` — the pure swallow-rule evaluator (`canSwallow`,
  `calculateGrowth`);
* `Hole.ts` — the hole state machine (`update`, `swallowObject`/`checkFall`,
  `grow`), modelled as an executable step function over an explicit state,
  with the per-frame scene snapshot and the `checkFall` timer firings as
  explicit events;
* `LevelManager.ts` — level loading, swallow notifications, victory
  evaluation and progression persistence.

JavaScript numbers are modelled as rationals (`ℚ`), so every definition is
executable and every comparison decidable.  The Euclidean distances that
`Hole.update` reads off BabylonJS (`Vector3.Distance` and the explicit
`Math.sqrt` for the horizontal distance) are carried as observation fields of
the per-mesh snapshot, since they are computed by the external engine/maths
library from the engine-owned positions.
-/

namespace SwallowLogic

/-- Function `canSwallow` from `swallowLogic.ts`:
`edgeDistance = distanceToObject - objectRadius`, and the result is
`edgeDistance < holeRadius * 0.9 && objectRadius < holeRadius`. -/
def canSwallow (holeRadius objectRadius distanceToObject : ℚ) : Bool :=
  let edgeDistance := distanceToObject - objectRadius
  decide (edgeDistance < holeRadius * 0.9) && decide (objectRadius < holeRadius)

/-- Function `calculateGrowth` from `swallowLogic.ts`: `objectRadius * growthRate`. -/
def calculateGrowth (objectRadius growthRate : ℚ) : ℚ :=
  objectRadius * growthRate

end SwallowLogic

namespace Hole

open SwallowLogic

/-- Per-frame observation of one scene mesh, as read by `Hole.update`:
its `id` and `name`, the `getMeshRadius` bounding-size result, the vertical
position `mesh.position.y`, the full Euclidean distance
`Vector3.Distance(mesh.position, hole.position)` and the horizontal
`Math.sqrt((mx-hx)^2 + (mz-hz)^2)` distance to the hole centre.  The two
distances are engine-computed observations of the engine-owned positions. -/
structure MeshSnap where
  id : String
  name : String
  meshRadius : ℚ
  y : ℚ
  dist : ℚ
  horizontalDistance : ℚ
deriving DecidableEq, Repr

/-- The mesh filter at the top of `Hole.update`: not the hole or the ground,
and named `sphere*` or `box*`. -/
def isCandidate (m : MeshSnap) : Bool :=
  !(m.name == "hole") && !(m.name == "ground") &&
    (m.name.startsWith "sphere" || m.name.startsWith "box")

/-- State of the hole and of its in-flight swallows.

* `radius`, `growthRate`: the `Hole` fields (`growthRate` is initialised to
  `0.3` and never reassigned in the source);
* `swallowing`: the `swallowingMeshes` set of ids;
* `pending`: the live `checkFall` polling chains, one per started swallow,
  keyed by mesh id and carrying the `meshRadius` captured by the closure at
  `swallowObject` time (the closure's `growAmount` is
  `calculateGrowth meshRadius growthRate`, recomputed at finalisation —
  `growthRate` is constant, so this equals the captured value);
* `disposedFlags`: ids on which `dispose()` has been called, by the hole or
  out-of-band (`mesh.isDisposed()`; disposed meshes are no longer in
  `scene.meshes`);
* `finalized`: log of finalised swallows `(id, growAmount)`, i.e. the
  `mesh.dispose(); swallowingMeshes.delete(id); grow(growAmount)` branch. -/
structure HoleState where
  radius : ℚ
  growthRate : ℚ
  swallowing : List String
  pending : List (String × ℚ)
  disposedFlags : List String
  finalized : List (String × ℚ)
deriving DecidableEq, Repr

/-- The `Hole` constructor state: `swallowingMeshes` empty, no live chains,
`growthRate = 0.3`, the given initial radius (default `0.8` in the source). -/
def initialHole (initialRadius : ℚ) : HoleState :=
  { radius := initialRadius
    growthRate := 0.3
    swallowing := []
    pending := []
    disposedFlags := []
    finalized := [] }

/-- The per-mesh body of the `meshes.forEach` in `Hole.update`: if
`canSwallow` approves and the object is over the hole opening
(`horizontalDistance < radius && y < 1`) and is not already being swallowed,
add it to `swallowingMeshes` and start `swallowObject`'s `checkFall` chain. -/
def considerMesh (s : HoleState) (m : MeshSnap) : HoleState :=
  if canSwallow s.radius m.meshRadius m.dist then
    if m.horizontalDistance < s.radius ∧ m.y < 1 then
      if m.id ∈ s.swallowing then s
      else
        { s with
          swallowing := m.id :: s.swallowing
          pending := (m.id, m.meshRadius) :: s.pending }
    else s
  else s

/-- One `Hole.update()` call on a scene snapshot: filter to candidate meshes
(disposed meshes are absent from `scene.meshes`, hence the `disposedFlags`
filter) and run the `forEach` body over them. -/
def updateStep (s : HoleState) (snaps : List MeshSnap) : HoleState :=
  (snaps.filter (fun m => isCandidate m && !(decide (m.id ∈ s.disposedFlags)))).foldl
    considerMesh s

/-- One firing of a `checkFall` timer for mesh `id`, observing the current
vertical position `y`.  No live chain — nothing happens.  Otherwise, the
source's three branches: fallen deep enough (`y < -5`) — dispose, remove from
`swallowingMeshes`, grow by the captured amount, chain ends; not disposed —
`setTimeout(checkFall, 100)`, i.e. the chain stays live and nothing changes;
disposed out-of-band — the chain silently ends. -/
def pollStep (s : HoleState) (id : String) (y : ℚ) : HoleState :=
  match s.pending.lookup id with
  | none => s
  | some meshRadius =>
    let growAmount := calculateGrowth meshRadius s.growthRate
    if y < -5 then
      { s with
        radius := s.radius + growAmount
        swallowing := s.swallowing.erase id
        pending := s.pending.filter (fun p => !(p.1 == id))
        disposedFlags := id :: s.disposedFlags
        finalized := (id, growAmount) :: s.finalized }
    else if id ∈ s.disposedFlags then
      { s with pending := s.pending.filter (fun p => !(p.1 == id)) }
    else s

/-- Out-of-band disposal of a mesh by external cleanup: the mesh leaves the
scene (`mesh.isDisposed()` becomes true); the hole's own state is untouched. -/
def oobStep (s : HoleState) (id : String) : HoleState :=
  { s with disposedFlags := id :: s.disposedFlags }

/-- Events the hole reacts to: an `update()` frame with its scene snapshot, a
`checkFall` timer firing, or an out-of-band disposal. -/
inductive HoleEvent where
  | update (snaps : List MeshSnap)
  | poll (id : String) (y : ℚ)
  | oobDispose (id : String)
deriving DecidableEq, Repr

def stepHole (s : HoleState) : HoleEvent → HoleState
  | .update snaps => updateStep s snaps
  | .poll id y => pollStep s id y
  | .oobDispose id => oobStep s id

def runHole (s : HoleState) (evs : List HoleEvent) : HoleState :=
  evs.foldl stepHole s

/-- Scene snapshots respect the swallow-rule evaluator's precondition:
object radii are non-negative (`getMeshRadius` is half of a non-negative
bounding-box extent; `objectRadius ≤ 0` is invalid input per the design). -/
def EventNonneg : HoleEvent → Prop
  | .update snaps => ∀ m ∈ snaps, 0 ≤ m.meshRadius
  | .poll _ _ => True
  | .oobDispose _ => True

/-- Per-object tracking invariant behind at-most-once consumption of the
object `id`: it has been finalised plus is currently mid-fall at most once in
total, a live chain implies membership in `swallowingMeshes`, and a finalised
object has had `dispose()` called on it (so it is gone from `scene.meshes`). -/
structure TrackInv (id : String) (s : HoleState) : Prop where
  measureLe :
    (s.finalized.map Prod.fst).count id +
      (if id ∈ s.pending.map Prod.fst then 1 else 0) ≤ 1
  pendingSwallowing : id ∈ s.pending.map Prod.fst → id ∈ s.swallowing
  loggedFlagged : id ∈ s.finalized.map Prod.fst → id ∈ s.disposedFlags

/-- A concrete mid-fall state: hole of radius `0.8` (growth rate `0.3`) with
three approved, not yet finalised swallows of radii `0.25`, `0.5` and `1`. -/
def exampleFallState : HoleState :=
  { radius := 0.8
    growthRate := 0.3
    swallowing := ["a", "b", "c"]
    pending := [("a", 0.25), ("b", 0.5), ("c", 1)]
    disposedFlags := []
    finalized := [] }

end Hole

namespace LevelMgr

/-- A victory condition tag (`VictoryConditionType` in `levels/types.ts`). -/
inductive VictoryType where
  | all_objects
  | target_size
  | specific_objects
deriving DecidableEq, Repr

/-- Structure `VictoryCondition` from `levels/types.ts`; `targetSize` and
`requiredObjects` are optional fields. -/
structure VictoryCondition where
  type : VictoryType
  targetSize : Option ℚ := none
  requiredObjects : Option (List String) := none
deriving DecidableEq, Repr

/-- The parts of `LevelObject` the progression core reads: the id, the
effective swallow radius, and the optional `isRequired` flag (`none`/absent
behaves as `false`). -/
structure LevelObject where
  id : String
  swallowRadius : ℚ
  isRequired : Bool := false
deriving DecidableEq, Repr

/-- The hole block of `LevelConfig`: starting radius and `(x, z)` position. -/
structure HoleCfg where
  startRadius : ℚ
  startX : ℚ
  startZ : ℚ
deriving DecidableEq, Repr

/-- Structure `LevelConfig` from `levels/types.ts`, restricted to the fields the
progression core reads (environment and visual data are external). -/
structure LevelConfig where
  id : String
  name : String
  victory : VictoryCondition
  hole : HoleCfg
  objects : List LevelObject
deriving DecidableEq, Repr

/-- State of the `LevelManager`.  `storage` models the `localStorage`
`'currentLevel'` cell: the persisted integer (stored in the source as its
decimal numeral, with `parseInt` as the inverse on canonical numerals).
`holeRadius`/`holeX`/`holeZ` are the injected `Hole`'s observable state, which
the manager reads via `getRadius()` and writes via `setRadius`/`moveTo`. -/
structure LMState where
  currentLevelIndex : ℕ
  currentLevel : Option LevelConfig
  remainingObjects : List String
  requiredObjects : List String
  levelObjects : List String
  holeRadius : ℚ
  holeX : ℚ
  holeZ : ℚ
  storage : Option ℕ
deriving DecidableEq, Repr

/-- Externally observable notifications: the victory callback and the
game-complete callback passed to the `LevelManager` constructor. -/
inductive LMOut where
  | victory
  | gameComplete
deriving DecidableEq, Repr

/-- The `LevelManager` constructor: fields start at their initialisers
(`currentLevelIndex = 0`, empty sets, no level); then the saved progress is
read from `localStorage` and, when present, parsed into
`currentLevelIndex`.  The hole is injected with its current state. -/
def mkLevelManager (saved : Option ℕ) (holeRadius holeX holeZ : ℚ) : LMState :=
  { currentLevelIndex := saved.getD 0
    currentLevel := none
    remainingObjects := []
    requiredObjects := []
    levelObjects := []
    holeRadius := holeRadius
    holeX := holeX
    holeZ := holeZ
    storage := saved }

/-- Method `clearLevel`: dispose all live level objects and clear the three
id collections. -/
def clearLevel (s : LMState) : LMState :=
  { s with levelObjects := [], remainingObjects := [], requiredObjects := [] }

/-- The per-object body of the `levelConfig.objects.forEach` in `loadLevel`:
register the created mesh, add the id to `remainingObjects`, and to
`requiredObjects` when flagged.  `List.insert` mirrors `Set.add`/`Map.set`
key semantics (no duplicates). -/
def registerObject (s : LMState) (obj : LevelObject) : LMState :=
  { s with
    levelObjects := s.levelObjects.insert obj.id
    remainingObjects := s.remainingObjects.insert obj.id
    requiredObjects :=
      if obj.isRequired then s.requiredObjects.insert obj.id else s.requiredObjects }

/-- Method `loadLevel`: clear the previous level, record the config, reset the hole
via `setRadius`/`moveTo` to the config's starting values, then instantiate
and register every object definition. -/
def loadLevel (s : LMState) (cfg : LevelConfig) : LMState :=
  let s := clearLevel s
  let s :=
    { s with
      currentLevel := some cfg
      holeRadius := cfg.hole.startRadius
      holeX := cfg.hole.startX
      holeZ := cfg.hole.startZ }
  cfg.objects.foldl registerObject s

/-- Method `loadCurrentLevel`: if `currentLevelIndex >= levels.length`, invoke the
game-complete callback and return without loading; otherwise load
`levels[currentLevelIndex]`. -/
def loadCurrentLevel (levels : List LevelConfig) (s : LMState) :
    LMState × List LMOut :=
  if h : s.currentLevelIndex < levels.length then
    (loadLevel s (levels.get ⟨s.currentLevelIndex, h⟩), [])
  else
    (s, [LMOut.gameComplete])

/-- The JavaScript `x || d` fallback on the optional numeric `targetSize`
(`undefined` and `0` are falsy). -/
def jsOrQ : Option ℚ → ℚ → ℚ
  | some t, d => if t = 0 then d else t
  | none, d => d

/-- The `switch` in `checkVictoryCondition` computing `isVictory` (`false`
when no level is loaded). -/
def victoryMet (s : LMState) : Bool :=
  match s.currentLevel with
  | none => false
  | some lvl =>
    match lvl.victory.type with
    | .all_objects => decide (s.remainingObjects.length = 0)
    | .target_size => decide (s.holeRadius ≥ jsOrQ lvl.victory.targetSize 999)
    | .specific_objects =>
      match lvl.victory.requiredObjects with
      | some reqs => reqs.all (fun id => !(decide (id ∈ s.remainingObjects)))
      | none => false

/-- Method `triggerVictory` (synchronous part): increment `currentLevelIndex`,
persist it to `localStorage`, and invoke the victory callback.  The delayed
`setTimeout` continuation is `victoryTimeout` below. -/
def triggerVictory (s : LMState) : LMState × List LMOut :=
  let idx := s.currentLevelIndex + 1
  ({ s with currentLevelIndex := idx, storage := some idx }, [LMOut.victory])

/-- The `setTimeout` continuation inside `triggerVictory`: after the
celebratory delay, load the next level or signal game completion. -/
def victoryTimeout (levels : List LevelConfig) (s : LMState) :
    LMState × List LMOut :=
  if s.currentLevelIndex < levels.length then
    loadCurrentLevel levels s
  else
    (s, [LMOut.gameComplete])

/-- Method `checkVictoryCondition`: evaluate `isVictory` and trigger victory when it
holds. -/
def checkVictoryCondition (s : LMState) : LMState × List LMOut :=
  if victoryMet s then triggerVictory s else (s, [])

/-- Method `onObjectSwallowed(mesh)`: look up `mesh.metadata?.levelObjectId`
(`none` models a missing metadata chain, and the empty string is falsy in the
`!objectId` guard); return early when the id is falsy or not in
`remainingObjects`; otherwise remove it from `remainingObjects` and
`levelObjects` and check the victory condition. -/
def onObjectSwallowed (s : LMState) (metaId : Option String) :
    LMState × List LMOut :=
  match metaId with
  | none => (s, [])
  | some objectId =>
    if objectId = "" ∨ objectId ∉ s.remainingObjects then (s, [])
    else
      checkVictoryCondition
        { s with
          remainingObjects := s.remainingObjects.erase objectId
          levelObjects := s.levelObjects.erase objectId }

/-- Method `resetProgress`: back to level 0, clear the persisted cell, reload. -/
def resetProgress (levels : List LevelConfig) (s : LMState) :
    LMState × List LMOut :=
  loadCurrentLevel levels { s with currentLevelIndex := 0, storage := none }

/-- A concrete catalog entry shaped like the shipped first level
(`westPhillySidewalk`): an all-objects victory condition. -/
def sampleLevel : LevelConfig :=
  { id := "west-philly-sidewalk"
    name := "West Philly Sidewalk"
    victory := { type := VictoryType.all_objects }
    hole := { startRadius := 0.3, startX := 0, startZ := 0 }
    objects := [] }

end LevelMgr
namespace Hole

open SwallowLogic

theorem considerMesh_cases (s : HoleState) (m : MeshSnap) :
    considerMesh s m = s ∨
      (canSwallow s.radius m.meshRadius m.dist = true ∧
        m.horizontalDistance < s.radius ∧ m.y < 1 ∧ m.id ∉ s.swallowing ∧
        considerMesh s m =
          { s with
            swallowing := m.id :: s.swallowing
            pending := (m.id, m.meshRadius) :: s.pending }) := by
  unfold considerMesh
  split
  · split
    · split
      · exact Or.inl rfl
      · next hcan hover hmem =>
          exact Or.inr ⟨hcan, hover.1, hover.2, hmem, rfl⟩
    · exact Or.inl rfl
  · exact Or.inl rfl

theorem considerMesh_radius (s : HoleState) (m : MeshSnap) :
    (considerMesh s m).radius = s.radius := by
  rcases considerMesh_cases s m with h | ⟨_, _, _, _, h⟩ <;> rw [h]

theorem considerMesh_growthRate (s : HoleState) (m : MeshSnap) :
    (considerMesh s m).growthRate = s.growthRate := by
  rcases considerMesh_cases s m with h | ⟨_, _, _, _, h⟩ <;> rw [h]

theorem considerMesh_disposedFlags (s : HoleState) (m : MeshSnap) :
    (considerMesh s m).disposedFlags = s.disposedFlags := by
  rcases considerMesh_cases s m with h | ⟨_, _, _, _, h⟩ <;> rw [h]

theorem considerMesh_finalized (s : HoleState) (m : MeshSnap) :
    (considerMesh s m).finalized = s.finalized := by
  rcases considerMesh_cases s m with h | ⟨_, _, _, _, h⟩ <;> rw [h]

theorem foldl_considerMesh_radius (l : List MeshSnap) (s : HoleState) :
    (l.foldl considerMesh s).radius = s.radius := by
  induction l generalizing s with
  | nil => rfl
  | cons m l ih => rw [List.foldl_cons, ih, considerMesh_radius]

theorem foldl_considerMesh_growthRate (l : List MeshSnap) (s : HoleState) :
    (l.foldl considerMesh s).growthRate = s.growthRate := by
  induction l generalizing s with
  | nil => rfl
  | cons m l ih => rw [List.foldl_cons, ih, considerMesh_growthRate]

theorem foldl_considerMesh_disposedFlags (l : List MeshSnap) (s : HoleState) :
    (l.foldl considerMesh s).disposedFlags = s.disposedFlags := by
  induction l generalizing s with
  | nil => rfl
  | cons m l ih => rw [List.foldl_cons, ih, considerMesh_disposedFlags]

theorem foldl_considerMesh_finalized (l : List MeshSnap) (s : HoleState) :
    (l.foldl considerMesh s).finalized = s.finalized := by
  induction l generalizing s with
  | nil => rfl
  | cons m l ih => rw [List.foldl_cons, ih, considerMesh_finalized]

theorem updateStep_radius (s : HoleState) (snaps : List MeshSnap) :
    (updateStep s snaps).radius = s.radius :=
  foldl_considerMesh_radius _ _

theorem updateStep_growthRate (s : HoleState) (snaps : List MeshSnap) :
    (updateStep s snaps).growthRate = s.growthRate :=
  foldl_considerMesh_growthRate _ _

theorem updateStep_disposedFlags (s : HoleState) (snaps : List MeshSnap) :
    (updateStep s snaps).disposedFlags = s.disposedFlags :=
  foldl_considerMesh_disposedFlags _ _

theorem updateStep_finalized (s : HoleState) (snaps : List MeshSnap) :
    (updateStep s snaps).finalized = s.finalized :=
  foldl_considerMesh_finalized _ _

theorem lookup_mem {l : List (String × ℚ)} {a : String} {b : ℚ}
    (h : l.lookup a = some b) : (a, b) ∈ l := by
  induction l with
  | nil => simp [List.lookup] at h
  | cons p l ih =>
    obtain ⟨k, v⟩ := p
    rw [List.lookup_cons] at h
    by_cases hab : a = k
    · subst hab
      simp only [beq_self_eq_true] at h
      cases h
      exact List.mem_cons_self _ _
    · rw [beq_false_of_ne hab] at h
      exact List.mem_cons_of_mem _ (ih h)

theorem mem_keys_of_lookup {l : List (String × ℚ)} {a : String} {b : ℚ}
    (h : l.lookup a = some b) : a ∈ l.map Prod.fst :=
  List.mem_map.2 ⟨(a, b), lookup_mem h, rfl⟩

theorem lookup_filter_out (l : List (String × ℚ)) (a : String) :
    (l.filter fun p => !(p.1 == a)).lookup a = none := by
  induction l with
  | nil => rfl
  | cons p l ih =>
    obtain ⟨k, v⟩ := p
    by_cases hp : k = a
    · simpa [List.filter_cons, hp] using ih
    · simp only [List.filter_cons, beq_false_of_ne hp, Bool.not_false, if_pos,
        List.lookup_cons]
      rw [beq_false_of_ne fun h => hp h.symm]
      exact ih

end Hole
namespace Hole

open SwallowLogic

theorem pollStep_cases (s : HoleState) (id : String) (y : ℚ) :
    pollStep s id y = s ∨
      (∃ r, s.pending.lookup id = some r ∧ y < -5 ∧
        pollStep s id y =
          { s with
            radius := s.radius + calculateGrowth r s.growthRate
            swallowing := s.swallowing.erase id
            pending := s.pending.filter (fun p => !(p.1 == id))
            disposedFlags := id :: s.disposedFlags
            finalized := (id, calculateGrowth r s.growthRate) :: s.finalized }) ∨
      (∃ r, s.pending.lookup id = some r ∧ ¬y < -5 ∧ id ∈ s.disposedFlags ∧
        pollStep s id y =
          { s with pending := s.pending.filter (fun p => !(p.1 == id)) }) := by
  unfold pollStep
  split
  · exact Or.inl rfl
  · next r heq =>
    split
    · next hy => exact Or.inr (Or.inl ⟨r, heq, hy, rfl⟩)
    · next hy =>
      split
      · next hd => exact Or.inr (Or.inr ⟨r, heq, hy, hd, rfl⟩)
      · exact Or.inl rfl

theorem pollStep_growthRate (s : HoleState) (id : String) (y : ℚ) :
    (pollStep s id y).growthRate = s.growthRate := by
  rcases pollStep_cases s id y with h | ⟨r, _, _, h⟩ | ⟨r, _, _, _, h⟩ <;> rw [h]

theorem stepHole_growthRate (s : HoleState) (e : HoleEvent) :
    (stepHole s e).growthRate = s.growthRate := by
  cases e with
  | update snaps => exact updateStep_growthRate s snaps
  | poll id y => exact pollStep_growthRate s id y
  | oobDispose id => rfl

theorem not_mem_keys_filter_self (l : List (String × ℚ)) (a : String) :
    a ∉ (l.filter fun p => !(p.1 == a)).map Prod.fst := by
  intro h
  obtain ⟨p, hpmem, hfst⟩ := List.mem_map.1 h
  have h2 := (List.mem_filter.1 hpmem).2
  rw [hfst] at h2
  simp at h2

theorem mem_keys_filter_ne {l : List (String × ℚ)} {a b : String} (hne : a ≠ b) :
    a ∈ (l.filter fun p => !(p.1 == b)).map Prod.fst ↔ a ∈ l.map Prod.fst := by
  constructor
  · intro h
    obtain ⟨p, hpmem, hfst⟩ := List.mem_map.1 h
    exact List.mem_map.2 ⟨p, (List.mem_filter.1 hpmem).1, hfst⟩
  · intro h
    obtain ⟨p, hpmem, hfst⟩ := List.mem_map.1 h
    refine List.mem_map.2 ⟨p, List.mem_filter.2 ⟨hpmem, ?_⟩, hfst⟩
    rw [hfst]
    simpa using hne

theorem considerMesh_pendingNonneg {s : HoleState} {m : MeshSnap}
    (hm : 0 ≤ m.meshRadius) (hp : ∀ p ∈ s.pending, 0 ≤ p.2) :
    ∀ p ∈ (considerMesh s m).pending, 0 ≤ p.2 := by
  rcases considerMesh_cases s m with h | ⟨_, _, _, _, h⟩
  · rw [h]; exact hp
  · rw [h]
    intro p hpmem
    rcases List.mem_cons.1 hpmem with h1 | h1
    · rw [h1]; exact hm
    · exact hp p h1

theorem foldl_pendingNonneg {l : List MeshSnap} {s : HoleState}
    (hl : ∀ m ∈ l, 0 ≤ m.meshRadius) (hp : ∀ p ∈ s.pending, 0 ≤ p.2) :
    ∀ p ∈ (l.foldl considerMesh s).pending, 0 ≤ p.2 := by
  induction l generalizing s with
  | nil => exact hp
  | cons m l ih =>
    rw [List.foldl_cons]
    exact ih (fun m' hm' => hl m' (List.mem_cons_of_mem _ hm'))
      (considerMesh_pendingNonneg (hl m (List.mem_cons_self _ _)) hp)

theorem stepHole_pendingNonneg {s : HoleState} {e : HoleEvent}
    (he : EventNonneg e) (hp : ∀ p ∈ s.pending, 0 ≤ p.2) :
    ∀ p ∈ (stepHole s e).pending, 0 ≤ p.2 := by
  cases e with
  | update snaps =>
    simp only [stepHole, updateStep]
    exact foldl_pendingNonneg
      (fun m hm => he m (List.mem_filter.1 hm).1) hp
  | poll id y =>
    simp only [stepHole]
    rcases pollStep_cases s id y with h | ⟨r, hlk, hy, h⟩ | ⟨r, hlk, hy, hd, h⟩ <;>
      rw [h]
    · exact hp
    all_goals exact fun p hpmem => hp p (List.mem_filter.1 hpmem).1
  | oobDispose id => exact hp

theorem stepHole_radius_le {s : HoleState} (e : HoleEvent)
    (hg : 0 ≤ s.growthRate) (hp : ∀ p ∈ s.pending, 0 ≤ p.2) :
    s.radius ≤ (stepHole s e).radius := by
  cases e with
  | update snaps =>
    simp only [stepHole]
    rw [updateStep_radius]
  | poll id y =>
    simp only [stepHole]
    rcases pollStep_cases s id y with h | ⟨r, hlk, hy, h⟩ | ⟨r, hlk, hy, hd, h⟩ <;> rw [h]
    · have hr : 0 ≤ r := hp (id, r) (lookup_mem hlk)
      have hcg : 0 ≤ calculateGrowth r s.growthRate := mul_nonneg hr hg
      simpa using hcg
  | oobDispose id => exact le_refl _

theorem runHole_radius_mono (evs : List HoleEvent) (s : HoleState)
    (hg : 0 ≤ s.growthRate) (hp : ∀ p ∈ s.pending, 0 ≤ p.2)
    (hevs : ∀ e ∈ evs, EventNonneg e) :
    s.radius ≤ (runHole s evs).radius := by
  induction evs generalizing s with
  | nil => exact le_refl _
  | cons e evs ih =>
    refine le_trans (stepHole_radius_le e hg hp) ?_
    exact ih (stepHole s e)
      (by rw [stepHole_growthRate]; exact hg)
      (stepHole_pendingNonneg (hevs e (List.mem_cons_self _ _)) hp)
      (fun e' he' => hevs e' (List.mem_cons_of_mem _ he'))

end Hole
namespace Hole

open SwallowLogic

theorem keys_filter_subset (l : List (String × ℚ)) (q : String × ℚ → Bool) :
    (l.filter q).map Prod.fst ⊆ l.map Prod.fst :=
  List.map_subset _ (List.filter_subset' _)

theorem trackInv_considerMesh {id : String} {s : HoleState} {m : MeshSnap}
    (hflag : m.id = id → id ∉ s.disposedFlags) (h : TrackInv id s) :
    TrackInv id (considerMesh s m) := by
  rcases considerMesh_cases s m with heq | ⟨hcan, hh, hy, hmem, heq⟩
  · rwa [heq]
  · rw [heq]
    by_cases hid : m.id = id
    · subst hid
      have hkeys : m.id ∉ s.pending.map Prod.fst :=
        fun hk => hmem (h.pendingSwallowing hk)
      have hflags : m.id ∉ s.disposedFlags := hflag rfl
      have hfin : m.id ∉ s.finalized.map Prod.fst :=
        fun hf => hflags (h.loggedFlagged hf)
      have hcount : (s.finalized.map Prod.fst).count m.id = 0 :=
        List.count_eq_zero.2 hfin
      constructor
      · dsimp only
        rw [List.map_cons, hcount, if_pos (List.mem_cons_self _ _)]
      · intro _
        exact List.mem_cons_self _ _
      · intro hf
        exact absurd hf hfin
    · have hid' : ¬id = m.id := fun h' => hid h'.symm
      constructor
      · dsimp only
        rw [List.map_cons]
        have hiff : id ∈ m.id :: s.pending.map Prod.fst ↔
            id ∈ s.pending.map Prod.fst := by
          rw [List.mem_cons]
          exact ⟨fun h' => h'.resolve_left hid', Or.inr⟩
        rw [if_congr hiff rfl rfl]
        exact h.measureLe
      · intro hk
        dsimp only at hk ⊢
        rw [List.map_cons, List.mem_cons] at hk
        exact List.mem_cons_of_mem _ (h.pendingSwallowing (hk.resolve_left hid'))
      · intro hf
        exact h.loggedFlagged hf

theorem trackInv_foldl {id : String} (l : List MeshSnap) (s : HoleState)
    (hl : ∀ m ∈ l, m.id = id → id ∉ s.disposedFlags) (h : TrackInv id s) :
    TrackInv id (l.foldl considerMesh s) := by
  induction l generalizing s with
  | nil => exact h
  | cons m l ih =>
    rw [List.foldl_cons]
    refine ih (considerMesh s m) ?_
      (trackInv_considerMesh (hl m (List.mem_cons_self _ _)) h)
    intro m' hm' hid
    rw [considerMesh_disposedFlags]
    exact hl m' (List.mem_cons_of_mem _ hm') hid

theorem trackInv_updateStep {id : String} (s : HoleState)
    (snaps : List MeshSnap) (h : TrackInv id s) :
    TrackInv id (updateStep s snaps) := by
  refine trackInv_foldl _ s ?_ h
  intro m hm hid
  have h2 := (List.mem_filter.1 hm).2
  rw [Bool.and_eq_true] at h2
  have h3 := h2.2
  rw [Bool.not_eq_true', decide_eq_false_iff_not] at h3
  rw [← hid]
  exact h3

theorem trackInv_pollStep {id : String} (s : HoleState) (id' : String) (y : ℚ)
    (h : TrackInv id s) : TrackInv id (pollStep s id' y) := by
  rcases pollStep_cases s id' y with heq | ⟨r, hlk, hy, heq⟩ | ⟨r, hlk, hy, hd, heq⟩
  · rwa [heq]
  · rw [heq]
    by_cases hid : id = id'
    · subst hid
      have hkey : id ∈ s.pending.map Prod.fst := mem_keys_of_lookup hlk
      have hcount : (s.finalized.map Prod.fst).count id = 0 := by
        have hm := h.measureLe
        rw [if_pos hkey] at hm
        omega
      constructor
      · dsimp only
        rw [List.map_cons, List.count_cons_self, hcount,
          if_neg (not_mem_keys_filter_self s.pending id)]
      · intro hk
        exact absurd hk (not_mem_keys_filter_self s.pending id)
      · intro _
        exact List.mem_cons_self _ _
    · constructor
      · dsimp only
        rw [List.map_cons, List.count_cons_of_ne hid,
          if_congr (mem_keys_filter_ne hid) rfl rfl]
        exact h.measureLe
      · intro hk
        dsimp only at hk ⊢
        have hk' := (mem_keys_filter_ne hid).1 hk
        exact (List.mem_erase_of_ne hid).2 (h.pendingSwallowing hk')
      · intro hf
        dsimp only at hf ⊢
        rw [List.map_cons, List.mem_cons] at hf
        exact List.mem_cons_of_mem _ (h.loggedFlagged (hf.resolve_left hid))
  · rw [heq]
    constructor
    · dsimp only
      by_cases hid : id = id'
      · subst hid
        rw [if_neg (not_mem_keys_filter_self s.pending id)]
        have hm := h.measureLe
        omega
      · rw [if_congr (mem_keys_filter_ne hid) rfl rfl]
        exact h.measureLe
    · intro hk
      dsimp only at hk ⊢
      exact h.pendingSwallowing (keys_filter_subset _ _ hk)
    · intro hf
      exact h.loggedFlagged hf

theorem trackInv_stepHole {id : String} (s : HoleState) (e : HoleEvent)
    (h : TrackInv id s) : TrackInv id (stepHole s e) := by
  cases e with
  | update snaps => exact trackInv_updateStep s snaps h
  | poll id' y => exact trackInv_pollStep s id' y h
  | oobDispose id' =>
    constructor
    · exact h.measureLe
    · exact h.pendingSwallowing
    · intro hf
      exact List.mem_cons_of_mem _ (h.loggedFlagged hf)

theorem trackInv_runHole {id : String} (s : HoleState) (evs : List HoleEvent)
    (h : TrackInv id s) : TrackInv id (runHole s evs) := by
  induction evs generalizing s with
  | nil => exact h
  | cons e evs ih => exact ih (stepHole s e) (trackInv_stepHole s e h)

end Hole
namespace SwallowLogic

/-- C1: `canSwallow(holeRadius, objectRadius, distanceToObject)` returns true
iff the object's edge distance `distanceToObject - objectRadius` is below
`holeRadius * 0.9` and `objectRadius < holeRadius` strictly; in particular an
object exactly the hole's size is never swallowable, and a slightly smaller
object at zero distance always is (any `0 < ε ≤ r` works). -/
theorem canSwallow_spec :
    (∀ holeRadius objectRadius distanceToObject : ℚ,
        canSwallow holeRadius objectRadius distanceToObject = true ↔
          (distanceToObject - objectRadius < holeRadius * 0.9 ∧
            objectRadius < holeRadius))
    ∧ (∀ r d : ℚ, canSwallow r r d = false)
    ∧ (∀ r : ℚ, 0 < r → ∀ ε : ℚ, 0 < ε → ε ≤ r →
        canSwallow r (r - ε) 0 = true) := by
  refine ⟨?_, ?_, ?_⟩
  · intro h o d
    simp [canSwallow]
  · intro r d
    simp [canSwallow]
  · intro r hr ε hε hεr
    simp only [canSwallow, Bool.and_eq_true, decide_eq_true_eq]
    have h9 : (0 : ℚ) < r * 0.9 := by
      have : (0 : ℚ) < 0.9 := by norm_num
      positivity
    constructor
    · linarith
    · linarith

/-- Witness for C1 at `r = 1`, `ε = 1/2`. -/
theorem canSwallow_spec_witness : canSwallow 1 (1 - 1 / 2) 0 = true :=
  canSwallow_spec.2.2 1 (by norm_num) (1 / 2) (by norm_num) (by norm_num)

end SwallowLogic

namespace Hole

open SwallowLogic

/-- C2: across arbitrary event sequences the hole's radius never decreases
(given the design precondition of non-negative object radii); the radius
changes only when a `checkFall` chain finalises, and then grows by exactly
`meshRadius * growthRate`; the growth rate starts at `0.3` and no step ever
changes it. -/
theorem radius_monotone_growth :
    (∀ (s : HoleState) (evs : List HoleEvent),
        0 ≤ s.growthRate → (∀ p ∈ s.pending, 0 ≤ p.2) →
        (∀ e ∈ evs, EventNonneg e) →
        s.radius ≤ (runHole s evs).radius)
    ∧ (∀ (s : HoleState) (id : String) (y r : ℚ),
        s.pending.lookup id = some r → y < -5 →
        (pollStep s id y).radius = s.radius + calculateGrowth r s.growthRate)
    ∧ (∀ (s : HoleState) (snaps : List MeshSnap),
        (updateStep s snaps).radius = s.radius)
    ∧ (∀ (s : HoleState) (id : String) (y : ℚ),
        (s.pending.lookup id = none ∨ ¬y < -5) →
        (pollStep s id y).radius = s.radius)
    ∧ (∀ (s : HoleState) (id : String), (oobStep s id).radius = s.radius)
    ∧ (∀ r₀ : ℚ, (initialHole r₀).growthRate = 0.3)
    ∧ (∀ (s : HoleState) (e : HoleEvent),
        (stepHole s e).growthRate = s.growthRate) := by
  refine ⟨fun s evs => runHole_radius_mono evs s, ?_, updateStep_radius, ?_,
    fun s id => rfl, fun r₀ => rfl, stepHole_growthRate⟩
  · intro s id y r hlk hy
    simp [pollStep, hlk, hy]
  · intro s id y hcase
    rcases hcase with hnone | hy
    · simp [pollStep, hnone]
    · cases hlk : s.pending.lookup id with
      | none => simp [pollStep, hlk]
      | some r =>
        simp only [pollStep, hlk]
        rw [if_neg hy]
        split <;> rfl

/-- Witness for C2's monotonicity at the freshly constructed hole. -/
theorem radius_monotone_growth_witness :
    (initialHole 0.8).radius ≤
      (runHole (initialHole 0.8) [HoleEvent.oobDispose "a"]).radius :=
  radius_monotone_growth.1 (initialHole 0.8) [HoleEvent.oobDispose "a"]
    (by norm_num [initialHole]) (by simp [initialHole])
    (by intro e he; simp at he; subst he; trivial)

/-- C3: while an object is mid-fall it is finalised (disposed and grown for)
at most once across any sequence of update/poll events; `Hole.update` calls
never dispose or grow by themselves; and a swallow attempt for an identifier
already in the in-flight set is a no-op. -/
theorem at_most_once_consumption :
    (∀ (id : String) (s : HoleState) (evs : List HoleEvent),
        TrackInv id s →
        ((runHole s evs).finalized.map Prod.fst).count id ≤ 1)
    ∧ (∀ (s : HoleState) (snaps : List MeshSnap),
        (updateStep s snaps).finalized = s.finalized ∧
        (updateStep s snaps).radius = s.radius)
    ∧ (∀ (s : HoleState) (m : MeshSnap),
        m.id ∈ s.swallowing → considerMesh s m = s) := by
  refine ⟨?_, ?_, ?_⟩
  · intro id s evs h
    have hm := (trackInv_runHole s evs h).measureLe
    exact le_trans (Nat.le_add_right _ _) hm
  · intro s snaps
    exact ⟨updateStep_finalized s snaps, updateStep_radius s snaps⟩
  · intro s m hmem
    rcases considerMesh_cases s m with heq | ⟨_, _, _, hnmem, _⟩
    · exact heq
    · exact absurd hmem hnmem

/-- Witness for C3 on a concrete mid-fall state. -/
theorem at_most_once_consumption_witness :
    ((runHole exampleFallState [HoleEvent.update []]).finalized.map
        Prod.fst).count "a" ≤ 1 :=
  at_most_once_consumption.1 "a" exampleFallState [HoleEvent.update []]
    ⟨by simp [exampleFallState], by simp [exampleFallState],
      by simp [exampleFallState]⟩

/-- C5: the concrete growth computations — `calculateGrowth 0.25 0.3 = 0.075`,
`calculateGrowth 1.0 0.3 = 0.3` — and the radius sequence
`0.8 → 0.875 → 1.025 → 1.325` for finalised swallows of radii `0.25`, `0.5`,
`1.0` at growth rate `0.3`. -/
theorem growth_example_computation :
    calculateGrowth 0.25 0.3 = 0.075 ∧ calculateGrowth 1.0 0.3 = 0.3 ∧
    exampleFallState.radius = 0.8 ∧
    (runHole exampleFallState [HoleEvent.poll "a" (-6)]).radius = 0.875 ∧
    (runHole exampleFallState
      [HoleEvent.poll "a" (-6), HoleEvent.poll "b" (-6)]).radius = 1.025 ∧
    (runHole exampleFallState
      [HoleEvent.poll "a" (-6), HoleEvent.poll "b" (-6),
        HoleEvent.poll "c" (-6)]).radius = 1.325 := by
  refine ⟨by norm_num [calculateGrowth], by norm_num [calculateGrowth],
    by norm_num [exampleFallState], ?_, ?_, ?_⟩ <;>
    · simp [runHole, stepHole, pollStep, exampleFallState, List.lookup,
        calculateGrowth]
      norm_num

/-- C9: when the mesh of a live `checkFall` chain was disposed out-of-band
before falling past the threshold, the next poll ends the chain (no further
polling) without disposing, growing, or touching any other hole state — the
defensive no-crash path. -/
theorem oob_disposal_abandons_polling :
    ∀ (s : HoleState) (id : String) (y r : ℚ),
      s.pending.lookup id = some r → ¬y < -5 → id ∈ s.disposedFlags →
      (pollStep s id y).pending.lookup id = none ∧
      (pollStep s id y).radius = s.radius ∧
      (pollStep s id y).finalized = s.finalized ∧
      (pollStep s id y).swallowing = s.swallowing ∧
      (pollStep s id y).disposedFlags = s.disposedFlags := by
  intro s id y r hlk hy hd
  have heq : pollStep s id y =
      { s with pending := s.pending.filter (fun p => !(p.1 == id)) } := by
    simp [pollStep, hlk, hy, hd]
  rw [heq]
  exact ⟨lookup_filter_out _ _, rfl, rfl, rfl, rfl⟩

/-- Witness for C9 on a concrete out-of-band-disposed falling object. -/
theorem oob_disposal_abandons_polling_witness :
    (pollStep
      { radius := 1, growthRate := 0.3, swallowing := ["a"],
        pending := [("a", 0.5)], disposedFlags := ["a"], finalized := [] }
      "a" 0).pending.lookup "a" = none :=
  (oob_disposal_abandons_polling
    { radius := 1, growthRate := 0.3, swallowing := ["a"],
      pending := [("a", 0.5)], disposedFlags := ["a"], finalized := [] }
    "a" 0 0.5 (by simp) (by norm_num) (by simp)).1

/-- C10: in `Hole.update`, a `canSwallow`-approved candidate still starts a
swallow only when additionally its horizontal distance to the hole centre is
strictly below the hole radius and its height is strictly below 1; when
either extra condition fails the state is unchanged, and a newly started
swallow implies all the conditions held. -/
theorem update_requires_over_hole :
    ∀ (s : HoleState) (m : MeshSnap),
      (canSwallow s.radius m.meshRadius m.dist = true →
        ¬(m.horizontalDistance < s.radius ∧ m.y < 1) →
        considerMesh s m = s)
      ∧ (m.id ∈ (considerMesh s m).swallowing →
          m.id ∈ s.swallowing ∨
            (canSwallow s.radius m.meshRadius m.dist = true ∧
              m.horizontalDistance < s.radius ∧ m.y < 1)) := by
  intro s m
  constructor
  · intro hcan hnot
    unfold considerMesh
    rw [if_pos hcan, if_neg hnot]
  · intro hmem
    rcases considerMesh_cases s m with heq | ⟨hcan, hh, hy, _, heq⟩
    · rw [heq] at hmem
      exact Or.inl hmem
    · exact Or.inr ⟨hcan, hh, hy⟩

/-- Witness for C10: a swallowable object hovering at height `y = 1` is not
swallowed. -/
theorem update_requires_over_hole_witness :
    considerMesh (initialHole 1)
      { id := "sphere1", name := "sphere1", meshRadius := 0.5, y := 1,
        dist := 1, horizontalDistance := 0 } = initialHole 1 :=
  (update_requires_over_hole (initialHole 1) _).1
    (by simp only [canSwallow, initialHole, Bool.and_eq_true,
        decide_eq_true_eq]; norm_num)
    (by norm_num)

end Hole
namespace LevelMgr

theorem registerObject_currentLevel (s : LMState) (obj : LevelObject) :
    (registerObject s obj).currentLevel = s.currentLevel := rfl

theorem foldl_registerObject_currentLevel (l : List LevelObject) (s : LMState) :
    (l.foldl registerObject s).currentLevel = s.currentLevel := by
  induction l generalizing s with
  | nil => rfl
  | cons obj l ih => rw [List.foldl_cons, ih, registerObject_currentLevel]

theorem loadLevel_currentLevel (s : LMState) (cfg : LevelConfig) :
    (loadLevel s cfg).currentLevel = some cfg := by
  unfold loadLevel
  rw [foldl_registerObject_currentLevel]

theorem triggerVictory_remaining (s : LMState) :
    (triggerVictory s).1.remainingObjects = s.remainingObjects := rfl

theorem checkVictoryCondition_remaining (s : LMState) :
    (checkVictoryCondition s).1.remainingObjects = s.remainingObjects := by
  unfold checkVictoryCondition
  split <;> rfl

/-- C7: `loadCurrentLevel` when `currentLevelIndex` equals or exceeds the
catalog length invokes the game-complete callback and loads nothing; below
the length it loads exactly `levelCatalog[currentLevelIndex]`. -/
theorem load_current_level_exhaustion :
    ∀ (levels : List LevelConfig) (s : LMState),
      (levels.length ≤ s.currentLevelIndex →
        loadCurrentLevel levels s = (s, [LMOut.gameComplete]))
      ∧ ∀ h : s.currentLevelIndex < levels.length,
          loadCurrentLevel levels s =
            (loadLevel s (levels.get ⟨s.currentLevelIndex, h⟩), []) ∧
          (loadCurrentLevel levels s).1.currentLevel =
            some (levels.get ⟨s.currentLevelIndex, h⟩) := by
  intro levels s
  constructor
  · intro hge
    unfold loadCurrentLevel
    rw [dif_neg (not_lt.2 hge)]
  · intro h
    have heq : loadCurrentLevel levels s =
        (loadLevel s (levels.get ⟨s.currentLevelIndex, h⟩), []) := by
      unfold loadCurrentLevel
      rw [dif_pos h]
    refine ⟨heq, ?_⟩
    rw [heq]
    exact loadLevel_currentLevel _ _

/-- Witness for C7: with a one-level catalog and fresh progression state,
`loadCurrentLevel` loads that level. -/
theorem load_current_level_exhaustion_witness :
    (loadCurrentLevel [sampleLevel]
        (mkLevelManager none 1 0 0)).1.currentLevel = some sampleLevel := by
  have h := (load_current_level_exhaustion [sampleLevel]
      (mkLevelManager none 1 0 0)).2 (by simp [mkLevelManager])
  simpa [mkLevelManager] using h.2

/-- C6: after victory on level `i` the persisted index is `i + 1`, and a
`LevelManager` constructed from that persisted value resumes at level
`i + 1`, not level 0. -/
theorem progression_persistence_round_trip :
    ∀ (s : LMState) (i : ℕ), s.currentLevelIndex = i →
      (triggerVictory s).1.storage = some (i + 1) ∧
      (triggerVictory s).1.currentLevelIndex = i + 1 ∧
      (triggerVictory s).2 = [LMOut.victory] ∧
      (∀ holeRadius holeX holeZ : ℚ,
        (mkLevelManager (some (i + 1))
          holeRadius holeX holeZ).currentLevelIndex = i + 1) ∧
      i + 1 ≠ 0 := by
  intro s i hi
  subst hi
  exact ⟨rfl, rfl, rfl, fun _ _ _ => rfl, Nat.succ_ne_zero _⟩

/-- Witness for C6 at level index 0. -/
theorem progression_persistence_round_trip_witness :
    (triggerVictory (mkLevelManager none 1 0 0)).1.storage = some 1 :=
  (progression_persistence_round_trip (mkLevelManager none 1 0 0) 0 rfl).1

/-- C8: the swallow notification is idempotent — a falsy or already-removed
id is a no-op, and a second notification for the same id leaves the state
unchanged and fires no callbacks. -/
theorem on_object_swallowed_idempotent :
    ∀ (s : LMState) (metaId : Option String),
      s.remainingObjects.Nodup →
      (∀ objectId, metaId = some objectId → objectId ∉ s.remainingObjects →
        onObjectSwallowed s metaId = (s, []))
      ∧ onObjectSwallowed (onObjectSwallowed s metaId).1 metaId =
          ((onObjectSwallowed s metaId).1, []) := by
  intro s metaId hnd
  constructor
  · intro objectId hmeta hnotin
    subst hmeta
    simp only [onObjectSwallowed]
    rw [if_pos (Or.inr hnotin)]
  · cases metaId with
    | none => rfl
    | some objectId =>
      by_cases hguard : objectId = "" ∨ objectId ∉ s.remainingObjects
      · have h1 : onObjectSwallowed s (some objectId) = (s, []) := by
          simp only [onObjectSwallowed]
          rw [if_pos hguard]
        rw [h1]
        simp only [onObjectSwallowed]
        rw [if_pos hguard]
      · have h1 : onObjectSwallowed s (some objectId) =
            checkVictoryCondition
              { s with
                remainingObjects := s.remainingObjects.erase objectId
                levelObjects := s.levelObjects.erase objectId } := by
          simp only [onObjectSwallowed]
          rw [if_neg hguard]
        have hnot : objectId ∉
            (onObjectSwallowed s (some objectId)).1.remainingObjects := by
          rw [h1, checkVictoryCondition_remaining]
          exact hnd.not_mem_erase
        set t := onObjectSwallowed s (some objectId) with ht
        simp only [onObjectSwallowed]
        rw [if_pos (Or.inr hnot)]

/-- Witness for C8: double notification for `"rock1"`. -/
theorem on_object_swallowed_idempotent_witness :
    onObjectSwallowed
        (onObjectSwallowed
          { mkLevelManager none 1 0 0 with remainingObjects := ["rock1"] }
          (some "rock1")).1 (some "rock1") =
      ((onObjectSwallowed
          { mkLevelManager none 1 0 0 with remainingObjects := ["rock1"] }
          (some "rock1")).1, []) :=
  (on_object_swallowed_idempotent
    { mkLevelManager none 1 0 0 with remainingObjects := ["rock1"] }
    (some "rock1") (by simp)).2

/-- C4: the victory evaluation after a swallow notification — all-objects
victory iff `remainingObjects` is empty; target-size victory iff the hole
radius has reached the configured (non-zero) target; specific-objects victory
iff every required id has been removed; and `checkVictoryCondition` fires the
victory callback exactly when the evaluation holds. -/
theorem victory_condition_evaluation :
    (∀ (s : LMState) (lvl : LevelConfig), s.currentLevel = some lvl →
      (lvl.victory.type = VictoryType.all_objects →
        (victoryMet s = true ↔ s.remainingObjects = []))
      ∧ (∀ t : ℚ, lvl.victory.type = VictoryType.target_size →
          lvl.victory.targetSize = some t → t ≠ 0 →
          (victoryMet s = true ↔ t ≤ s.holeRadius))
      ∧ (∀ reqs : List String,
          lvl.victory.type = VictoryType.specific_objects →
          lvl.victory.requiredObjects = some reqs →
          (victoryMet s = true ↔ ∀ id ∈ reqs, id ∉ s.remainingObjects)))
    ∧ (∀ s : LMState,
        (checkVictoryCondition s).2 = [LMOut.victory] ↔
          victoryMet s = true) := by
  constructor
  · intro s lvl hlvl
    refine ⟨?_, ?_, ?_⟩
    · intro htype
      simp [victoryMet, hlvl, htype, List.length_eq_zero]
    · intro t htype hts hne
      simp [victoryMet, hlvl, htype, jsOrQ, hts, hne, ge_iff_le]
    · intro reqs htype hreq
      simp [victoryMet, hlvl, htype, hreq]
  · intro s
    unfold checkVictoryCondition
    split
    · next hvm => simp [hvm, triggerVictory]
    · next hvm => simp [hvm]

/-- Witness for C4: an all-objects level with nothing remaining is won. -/
theorem victory_condition_evaluation_witness :
    victoryMet
      { mkLevelManager none 1 0 0 with currentLevel := some sampleLevel } =
      true :=
  ((victory_condition_evaluation.1
      { mkLevelManager none 1 0 0 with currentLevel := some sampleLevel }
      sampleLevel rfl).1 rfl).2 rfl

end LevelMgr
